import Mathlib

/-!
Shallow embedding of the netcfg core: the rule-to-command mapping
(`config/config.go`), the worker's command-selection loop and its host loop
(`cmd/run.go`, both the `connect` and the `configure` versions), and the
device identification pipeline (`device/device.go`).

Go strings are modelled as `List Char`; the `strings` package functions used
by the source (`Split`, `TrimSpace`, `ToLower`, `Replace`, `Contains`) are
embedded on their ASCII fragment, which is the fragment exercised by the
configuration keys the code builds.
-/

/-- Go string, as a list of characters. -/
abbrev Str := List Char

/-- Coerce a Lean string literal to the `Str` model. -/
def chars (s : String) : Str := s.data

/-- ASCII whitespace, the fragment of Go `unicode.IsSpace` relevant here:
space, tab, newline, carriage return. -/
def isWS (c : Char) : Bool := c == ' ' || c == '\t' || c == '\n' || c == '\r'

/-- Go `strings.TrimSpace` (ASCII fragment): drop whitespace from both ends. -/
def trimStr (s : Str) : Str := ((s.dropWhile isWS).reverse.dropWhile isWS).reverse

/-- Go `unicode.ToLower` restricted to ASCII letters. -/
def lowerChar (c : Char) : Char :=
  if 'A' ≤ c ∧ c ≤ 'Z' then Char.ofNat (c.toNat + 32) else c

/-- Go `strings.ToLower` (ASCII fragment). -/
def lowerStr (s : Str) : Str := s.map lowerChar

/-- Go `strings.Split` with a one-character separator (the source only splits
on `","` and `":"`). `Split` never returns an empty list. -/
def splitOnChar (sep : Char) : Str → List Str
  | [] => [[]]
  | c :: cs =>
    let r := splitOnChar sep cs
    if c = sep then [] :: r else (c :: r.headD []) :: r.tail

/-- Go `strings.Replace(s, string(c), "", -1)`: remove every occurrence. -/
def removeChar (c : Char) (s : Str) : Str := s.filter (fun x => !(x == c))

/-- Go `strings.Replace(s, string(c), "", n)`: remove the first `n`
occurrences. -/
def removeCharN : Nat → Char → Str → Str
  | _, _, [] => []
  | 0, _, s => s
  | n + 1, c, x :: t => if x = c then removeCharN n c t else x :: removeCharN (n + 1) c t

/-- Go `strings.Contains` (substring test). -/
def hasSub (pat : Str) : Str → Bool
  | [] => pat.isEmpty
  | c :: t => pat.isPrefixOf (c :: t) || hasSub pat t

/-- One character of Go `%q` formatting: quote and backslash are escaped.
(Go additionally escapes control and non-ASCII characters; the configuration
keys built by the source only exercise the printable-ASCII fragment.) -/
def quoteChar (c : Char) : Str :=
  if c = '"' then ['\\', '"'] else if c = '\\' then ['\\', '\\'] else [c]

/-- Go `fmt.Sprintf("%q", s)` on printable ASCII: wrap in double quotes,
escaping quotes and backslashes. -/
def goQuote (s : Str) : Str := '"' :: (s.map quoteChar).flatten ++ ['"']

/-- `config.cmdSet` (config/config.go): one `aliases`/`config` entry.  The
`cmds` field is the already-decoded YAML sequence of command strings. -/
structure cmdSet where
  addr : Str
  hostname : Str
  vendor : Str
  os : Str
  models : List Str
  version : Str
  cmds : List Str
deriving DecidableEq

/-- The key format string of `mapCmd` (config/config.go):
`"IP Addr: %s, Hostname: %q, Vendor: %q, OS: %q, Model: %q, Version: %q"`
applied to the six option fields. -/
def keyFmt (addr hostname vendor os model version : Str) : Str :=
  chars "IP Addr: " ++ addr ++ chars ", Hostname: " ++ goQuote hostname ++
  chars ", Vendor: " ++ goQuote vendor ++ chars ", OS: " ++ goQuote os ++
  chars ", Model: " ++ goQuote model ++ chars ", Version: " ++ goQuote version

/-- The all-empty key `fmt.Sprintf(s, "", "", "", "", "", "")` that `mapCmd`
replaces with `"generic"`. -/
def genericSentinel : Str := keyFmt [] [] [] [] [] []

/-- The raw keys a rule expands to in `mapCmd`: one per listed model when
`models` is non-empty, otherwise a single key with an empty model field. -/
def rawKeys (set : cmdSet) : List Str :=
  if set.models.length > 0 then
    set.models.map (fun mdl => keyFmt set.addr set.hostname set.vendor set.os mdl set.version)
  else
    [keyFmt set.addr set.hostname set.vendor set.os [] set.version]

/-- The per-key normalisation inside the `for _, k := range keys` loop of
`mapCmd`: the empty or all-empty key becomes `"generic"`, every other key is
`strings.TrimSpace`d. -/
def normKey (k : Str) : Str :=
  if k = [] ∨ k = genericSentinel then chars "generic" else trimStr k

/-- The Go `map[string][]string` of mapped commands, modelled as an
association list with unique keys (one entry per distinct key). -/
abbrev CmdMap := List (Str × List Str)

/-- `cmds[k] = append(cmds[k], cmd)`: append to the entry for `k`, creating
it when absent. -/
def upsert (m : CmdMap) (k : Str) (c : Str) : CmdMap :=
  match m with
  | [] => [(k, [c])]
  | (k0, vs) :: rest => if k0 = k then (k0, vs ++ [c]) :: rest else (k0, vs) :: upsert rest k c

/-- `mapCmd` (config/config.go): insert one command under every key of the
rule. -/
def mapCmd (set : cmdSet) (c : Str) (m : CmdMap) : CmdMap :=
  (rawKeys set).foldl (fun m k => upsert m (normKey k) c) m

/-- `MapCmds` (config/config.go): build the command map from the `config`
section, one `mapCmd` call per command of each rule, in declaration order.
(The dynamic type check rejecting non-string commands is not modelled: the
`cmds` field already holds strings.) -/
def MapCmds (config : List cmdSet) : CmdMap :=
  config.foldl (fun m set => set.cmds.foldl (fun m c => mapCmd set c m) m) []

-- A quick sanity example retained as a compile-time check of the key format.
example :
    normKey (keyFmt [] [] (chars "cisco") [] [] []) =
      chars "IP Addr: , Hostname: \"\", Vendor: \"cisco\", OS: \"\", Model: \"\", Version: \"\"" := by
  decide

example : normKey genericSentinel = chars "generic" := by decide

/-- The identity of a dialled device (`device.Client`, device/device.go):
address, hostname, vendor, operating system, model, software version. -/
structure Client where
  addr : Str
  hostname : Str
  vendor : Str
  os : Str
  model : Str
  version : Str
deriving DecidableEq

/-- Go map-of-string assignment `m[k] = v`: overwrite or append. -/
def setKV (m : List (Str × Str)) (k v : Str) : List (Str × Str) :=
  match m with
  | [] => [(k, v)]
  | (k0, v0) :: rest => if k0 = k then (k0, v) :: rest else (k0, v0) :: setKV rest k v

/-- Go map-of-string read `m[k]`: the stored value, or `""` when absent. -/
def getKV (m : List (Str × Str)) (k : Str) : Str :=
  match m with
  | [] => []
  | (k0, v0) :: rest => if k0 = k then v0 else getKV rest k

/-- The key re-parsing inside the worker loop (cmd/run.go, `configure`
lines 457-463 and `connect` lines 198-204): split the stored key on `","`,
split each piece on `":"`, trim the name, strip quotes from and lower-case
the value.  `opts[1]` is indexed unconditionally; a piece with no `":"`
makes that index out of bounds, which Go reports as a runtime panic,
modelled as `none`. -/
def parseKey (k : Str) : Option (List (Str × Str)) :=
  (splitOnChar ',' k).foldlM
    (fun m info =>
      match splitOnChar ':' info with
      | o0 :: o1 :: _ =>
        some (setKV m (trimStr o0) (trimStr (lowerStr (removeChar '"' o1))))
      | _ => none)
    []

/-- The six-field mismatch test of the worker loop (cmd/run.go lines
464-469): a non-empty parsed option that differs from the lower-cased
identity field makes the rule skip (`continue`). -/
def mismatch (m : List (Str × Str)) (c : Client) : Bool :=
  (getKV m (chars "IP Addr") != [] && getKV m (chars "IP Addr") != lowerStr c.addr) ||
  (getKV m (chars "Hostname") != [] && getKV m (chars "Hostname") != lowerStr c.hostname) ||
  (getKV m (chars "Vendor") != [] && getKV m (chars "Vendor") != lowerStr c.vendor) ||
  (getKV m (chars "OS") != [] && getKV m (chars "OS") != lowerStr c.os) ||
  (getKV m (chars "Model") != [] && getKV m (chars "Model") != lowerStr c.model) ||
  (getKV m (chars "Version") != [] && getKV m (chars "Version") != lowerStr c.version)

/-- Outcome of the command-selection step for one host. -/
inductive SelectResult where
  /-- A key failed to re-parse: index out of range, the worker goroutine
  panics. -/
  | panic : SelectResult
  /-- `len(cmds) == 0` after the loop and the fallback: the per-host error
  `"no commands to run"`. -/
  | noMatch : SelectResult
  /-- The selected command list. -/
  | cmds : List Str → SelectResult
deriving DecidableEq

/-- The body of the `for k, v := range cfgCmds` loop of the worker
(cmd/run.go lines 456-473), carrying the current `cmds` accumulator: every
entry whose parsed options all match replaces the accumulator, a parse
panic aborts the loop. -/
def selectLoopAux (c : Client) (acc : List Str) : CmdMap → Option (List Str)
  | [] => some acc
  | kv :: rest =>
    match parseKey kv.1 with
    | none => none
    | some m => selectLoopAux c (if mismatch m c then acc else kv.2) rest

/-- The `for k, v := range cfgCmds` loop of the worker (cmd/run.go lines
456-473), starting from `cmds := make([]string, 0)`.  `entries` is the map
in the iteration order Go happens to choose. -/
def selectLoop (entries : CmdMap) (c : Client) : Option (List Str) :=
  selectLoopAux c [] entries

/-- Go map read with `ok` flag: `cfgCmds["generic"]`. -/
def lookupMap (m : CmdMap) (k : Str) : Option (List Str) :=
  match m with
  | [] => none
  | (k0, v0) :: rest => if k0 = k then some v0 else lookupMap rest k

/-- The whole command-selection step of the worker (cmd/run.go lines
455-481): the match loop, then the `"generic"` fallback when nothing
matched, then the `"no commands to run"` error when the list is still
empty. -/
def selectCmds (entries : CmdMap) (c : Client) : SelectResult :=
  match selectLoop entries c with
  | none => .panic
  | some cs =>
    let cs :=
      match lookupMap entries (chars "generic") with
      | some g => if cs.isEmpty then g else cs
      | none => cs
    if cs.isEmpty then .noMatch else .cmds cs

example :
    selectCmds [(chars "generic", [chars "g"])] ⟨[], [], [], [], [], []⟩ = .panic := by
  decide

example :
    selectCmds (MapCmds [⟨[], [], chars "cisco", [], [], [], [chars "c1"]⟩])
      ⟨chars "10.0.0.1", chars "sw1", chars "CISCO", chars "IOS", chars "c3650", chars "15.2"⟩ =
      .cmds [chars "c1"] := by
  decide

/-- The vendor-specific regular-expression extractors used by
`parseSysDescr` (device/device.go lines 218-220, 238, 242, 245).  The regex
engine is an external collaborator; each `regexp.MustCompile(...).FindString`
call is modelled as an abstract total function from the description to the
matched substring (`""` when nothing matches, as in Go). -/
structure FindFns where
  ciscoModel : Str → Str
  ciscoSoftware : Str → Str
  ciscoVersion : Str → Str
  hpModel : Str → Str
  comwareVersion : Str → Str
  procurveVersion : Str → Str

/-- `parseSysDescr` (device/device.go lines 206-249): classify the raw
sysDescr string.  The base map carries all six fields as empty strings; the
Cisco and HP branches overwrite vendor, model, version and (sometimes) os;
input with no vendor cue leaves the map untouched. -/
def parseSysDescr (f : FindFns) (sysDescr : Str) : List (Str × Str) :=
  let m : List (Str × Str) :=
    [(chars "addr", []), (chars "hostname", []), (chars "vendor", []),
     (chars "os", []), (chars "model", []), (chars "version", [])]
  if hasSub (chars "Cisco") sysDescr then
    let m := setKV m (chars "vendor") (chars "CISCO")
    let m := setKV m (chars "model") (f.ciscoModel sysDescr)
    let software := f.ciscoSoftware sysDescr
    let version := f.ciscoVersion sysDescr
    let v := removeCharN 5 ',' version
    let m := setKV m (chars "version") (trimStr (software ++ chars " " ++ v))
    if hasSub (chars "IOS") sysDescr then
      if hasSub (chars "IOS XR") sysDescr || hasSub (chars "IOS-XR") sysDescr then
        setKV m (chars "os") (chars "IOS XR")
      else if hasSub (chars "IOS XE") sysDescr || hasSub (chars "IOS-XE") sysDescr then
        setKV m (chars "os") (chars "IOS XE")
      else
        setKV m (chars "os") (chars "IOS")
    else if hasSub (chars "NX OS") sysDescr || hasSub (chars "NX-OS") sysDescr then
      setKV m (chars "os") (chars "NX-OS")
    else
      m
  else if hasSub (chars "Hewlett Packard") sysDescr || hasSub (chars "HP") sysDescr ||
      hasSub (chars "ProCurve") sysDescr then
    let m := setKV m (chars "vendor") (chars "HP")
    let m := setKV m (chars "model") (f.hpModel sysDescr)
    if hasSub (chars "Comware") sysDescr then
      setKV (setKV m (chars "os") (chars "Comware")) (chars "version") (f.comwareVersion sysDescr)
    else if hasSub (chars "ProCurve") sysDescr then
      setKV (setKV m (chars "os") (chars "ProCurve")) (chars "version") (f.procurveVersion sysDescr)
    else
      m
  else
    m

/-- An SNMP variable binding, as far as `getSysDescr` inspects it: its type
tag and (for octet strings) its string value. -/
inductive SnmpVar where
  | octetString : Str → SnmpVar
  | otherVar : SnmpVar

/-- The `for _, v := range res.Variables` loop of `getSysDescr`
(device/device.go lines 196-201): the value of the first octet-string
variable, or `""`. -/
def extractDescr : List SnmpVar → Str
  | [] => []
  | .octetString s :: _ => s
  | .otherVar :: rest => extractDescr rest

/-- `getSysDescr` (device/device.go lines 180-203): the SNMP probe outcome
is an external collaborator, modelled as `Except Unit (List SnmpVar)` —
`.error` covers both a client-creation failure and a failed `Get` (the
probe's unreachable / protocol-error / timeout cases), each of which makes
the function deliver the all-empty map. -/
def getSysDescr (f : FindFns) (probe : Except Unit (List SnmpVar)) : List (Str × Str) :=
  match probe with
  | .error _ =>
    [(chars "addr", []), (chars "hostname", []), (chars "vendor", []),
     (chars "os", []), (chars "model", []), (chars "version", [])]
  | .ok vars => parseSysDescr f (extractDescr vars)

/-- The hostname taken from `net.LookupAddr` in `sysDescr` (device/device.go
lines 168-172): the first name when the lookup succeeded with at least one
name, otherwise empty.  `none` models a lookup error. -/
def hostnameFromLookup (names : Option (List Str)) : Str :=
  match names with
  | some (n :: _) => n
  | _ => []

/-- `sysDescr` (device/device.go lines 163-177): merge the probed map with
the dialled address and the reverse-lookup hostname. -/
def sysDescr (f : FindFns) (addr : Str) (names : Option (List Str))
    (probe : Except Unit (List SnmpVar)) : List (Str × Str) :=
  let m := getSysDescr f probe
  let m := setKV m (chars "addr") addr
  setKV m (chars "hostname") (hostnameFromLookup names)

/-- `(*Client).String()` (device/device.go lines 152-155). -/
def clientString (c : Client) : Str :=
  chars "IP Addr: " ++ c.addr ++ chars ", Hostname: " ++ c.hostname ++
  chars ", Vendor: " ++ c.vendor ++ chars ", OS: " ++ c.os ++
  chars ", Model: " ++ c.model ++ chars ", Version: " ++ c.version

/-- The error classes of `session.Wait()` distinguished by the type switch
in `Run` (device/device.go lines 113-121). -/
inductive SshWaitErr where
  | exitError : SshWaitErr
  | exitMissingError : SshWaitErr
  | otherErr : Str → SshWaitErr
deriving DecidableEq

/-- Which arm of the `select` in `Run` fires (device/device.go lines
111-130): the session finished (with `session.Wait()`s result) before the
timer, or `time.After(Timeout)` fired first. -/
inductive WaitOutcome where
  | finished : Option SshWaitErr → WaitOutcome
  | timedOut : WaitOutcome
deriving DecidableEq

/-- Close events recorded on the exit paths of `Run`: the deferred
`session.Close()` and `stdin.Close()`. -/
inductive SessionEvent where
  | closeSession : SessionEvent
  | closeStdin : SessionEvent
deriving DecidableEq

/-- The SSH transport outcomes `Run` depends on, each owned by the external
transport collaborator: session creation, pipe creation, `Shell()`, each
command write, the `select` outcome, and the final `ReadAll`. -/
structure RunEnv where
  newSession : Except Str Unit
  pipes : Except Str Unit
  shell : Except Str Unit
  write : Str → Option Str
  wait : WaitOutcome
  readAll : Except Str Str

/-- The command-write loop of `Run` (device/device.go lines 101-106): the
first failing write aborts the loop with its error. -/
def writeLoop (write : Str → Option Str) : List Str → Option Str
  | [] => none
  | c :: t =>
    match write c with
    | some e => some e
    | none => writeLoop write t

/-- `(*Client).Run` (device/device.go lines 85-131), with the deferred
closes made explicit: the returned event list holds the closes performed on
that exit path (`defer` runs last-in first-out, so `stdin.Close()` precedes
`session.Close()` on every path opened after both defers are armed). -/
def RunSession (env : RunEnv) (cmds : List Str) : Except Str Str × List SessionEvent :=
  match env.newSession with
  | .error e => (.error e, [])
  | .ok _ =>
    match env.pipes with
    | .error e => (.error e, [.closeSession])
    | .ok _ =>
      match env.shell with
      | .error e => (.error e, [.closeStdin, .closeSession])
      | .ok _ =>
        match writeLoop env.write cmds with
        | some e => (.error e, [.closeStdin, .closeSession])
        | none =>
          match env.wait with
          | .timedOut => (.error (chars "session timed out"), [.closeStdin, .closeSession])
          | .finished werr =>
            match werr with
            | some (.otherErr msg) => (.error msg, [.closeStdin, .closeSession])
            | _ =>
              match env.readAll with
              | .error e => (.error e, [.closeStdin, .closeSession])
              | .ok out => (.ok out, [.closeStdin, .closeSession])

/-- A per-host configuration result (`result`, cmd/run.go lines 351-355). -/
structure HostResult where
  host : Str
  out : Option Str
  err : Option Str
deriving DecidableEq

/-- The per-host transport outcomes a worker observes: the dial result (an
identity-carrying client or an error) and the outcome of running the chosen
commands on that host. -/
structure HostEnv where
  dial : Except Str Client
  run : List Str → Except Str Str

/-- One iteration of the `configure` worker loop (cmd/run.go lines 434-492):
dial, select commands, run them; every failure produces an error-carrying
result and the loop continues.  `none` models the index-out-of-range panic
of the selection step. -/
def hostStep (entries : CmdMap) (env : Str → HostEnv) (h : Str) : Option HostResult :=
  match (env h).dial with
  | .error e => some ⟨h, none, some (chars "failed to dial " ++ h ++ chars ": " ++ e)⟩
  | .ok client =>
    match selectCmds entries client with
    | .panic => none
    | .noMatch => some ⟨h, none, some (chars "no commands to run")⟩
    | .cmds cs =>
      match (env h).run cs with
      | .error e => some ⟨h, none, some (chars "failed to run commands: " ++ e)⟩
      | .ok out => some ⟨clientString client, some out, none⟩

/-- The `configure` worker (cmd/run.go lines 431-493): drain the host queue,
one result per host, continuing past per-host failures; `none` models a
panic, which kills the worker (and the process). -/
def workerConfigure (entries : CmdMap) (env : Str → HostEnv) : List Str → Option (List HostResult)
  | [] => some []
  | h :: t =>
    match hostStep entries env h with
    | none => none
    | some r =>
      match workerConfigure entries env t with
      | none => none
      | some rs => some (r :: rs)

/-- The earlier `connect` worker (cmd/run.go lines 186-242): same per-host
pipeline, but every failure path ends with `return`, so the worker stops
after emitting the failed host's result and the rest of its queue is never
drained.  Its no-match branch re-sends the (nil) `err` from the successful
`Dial`, so that result carries no error.  `none` models the selection
panic. -/
def workerConnect (entries : CmdMap) (env : Str → HostEnv) : List Str → Option (List HostResult)
  | [] => some []
  | h :: t =>
    match (env h).dial with
    | .error e => some [⟨h, none, some e⟩]
    | .ok client =>
      match selectCmds entries client with
      | .panic => none
      | .noMatch => some [⟨h, none, none⟩]
      | .cmds cs =>
        match (env h).run cs with
        | .error e => some [⟨h, none, some e⟩]
        | .ok out =>
          match workerConnect entries env t with
          | none => none
          | some rs => some (⟨clientString client, some out, none⟩ :: rs)

/-! ### Helper lemmas about the selection loop -/

/-- A single unparseable key anywhere in the iteration makes the whole match
loop panic, whatever the accumulator. -/
lemma selectLoopAux_eq_none (c : Client) :
    ∀ (entries : CmdMap) (acc : List Str),
      (∃ kv ∈ entries, parseKey kv.1 = none) → selectLoopAux c acc entries = none := by
  intro entries
  induction entries with
  | nil => intro acc h; rcases h with ⟨kv, hm, _⟩; cases hm
  | cons kv rest ih =>
    intro acc h
    rcases h with ⟨kv0, hm, hp⟩
    rcases List.mem_cons.mp hm with h0 | h0
    · subst h0
      simp [selectLoopAux, hp]
    · unfold selectLoopAux
      cases hpk : parseKey kv.1 with
      | none => rfl
      | some m => exact ih _ ⟨kv0, h0, hp⟩

/-- What a successful match loop can return: the accumulator it started
from, or the command list of some entry whose parsed options all match. -/
lemma selectLoopAux_eq_some (c : Client) :
    ∀ (entries : CmdMap) (acc l : List Str),
      selectLoopAux c acc entries = some l →
      l = acc ∨ ∃ kv ∈ entries, ∃ m, parseKey kv.1 = some m ∧ mismatch m c = false ∧ kv.2 = l := by
  intro entries
  induction entries with
  | nil =>
    intro acc l h
    simp [selectLoopAux] at h
    exact Or.inl h.symm
  | cons kv rest ih =>
    intro acc l h
    unfold selectLoopAux at h
    cases hpk : parseKey kv.1 with
    | none => rw [hpk] at h; cases h
    | some m =>
      rw [hpk] at h
      rcases ih _ _ h with hl | ⟨kv0, hm0, m0, hp0, hmm0, hv0⟩
      · by_cases hmm : mismatch m c
        · rw [if_pos hmm] at hl
          exact Or.inl hl
        · rw [if_neg hmm] at hl
          exact Or.inr ⟨kv, List.mem_cons_self .., m, hpk, Bool.not_eq_true _ ▸ by simpa using hmm, hl.symm⟩
      · exact Or.inr ⟨kv0, List.mem_cons_of_mem _ hm0, m0, hp0, hmm0, hv0⟩

/-- A successful Go map read names an entry of the map. -/
lemma lookupMap_mem : ∀ (m : CmdMap) (k : Str) (v : List Str),
    lookupMap m k = some v → (k, v) ∈ m := by
  intro m
  induction m with
  | nil => intro k v h; cases h
  | cons kv rest ih =>
    intro k v h
    rcases kv with ⟨k0, v0⟩
    unfold lookupMap at h
    by_cases hk : k0 = k
    · rw [if_pos hk] at h
      cases h
      subst hk
      exact List.mem_cons_self ..
    · rw [if_neg hk] at h
      exact List.mem_cons_of_mem _ (ih _ _ h)

/-- The selection step panics whenever the iterated map holds an entry
whose key does not re-parse. -/
lemma selectCmds_panic_of_bad_key (entries : CmdMap) (c : Client)
    (h : ∃ kv ∈ entries, parseKey kv.1 = none) : selectCmds entries c = SelectResult.panic := by
  unfold selectCmds selectLoop
  rw [selectLoopAux_eq_none c entries [] h]

/-- C4: any mapped command set holding the fully-wildcarded rule stores it
under the key `"generic"`; the worker loop splits that key on `":"` and
unconditionally indexes element 1, which does not exist, so command
selection panics for every device identity and the generic-fallback branch
after the loop is never reached. -/
theorem c4_generic_key_panics (entries : CmdMap) (c : Client)
    (h : ∃ v, (chars "generic", v) ∈ entries) :
    parseKey (chars "generic") = none ∧ selectCmds entries c = SelectResult.panic := by
  have hpk : parseKey (chars "generic") = none := by decide
  refine ⟨hpk, ?_⟩
  rcases h with ⟨v, hv⟩
  exact selectCmds_panic_of_bad_key entries c ⟨(chars "generic", v), hv, hpk⟩

/-- C4 witness: a one-entry generic map panics for a concrete identity. -/
theorem c4_generic_key_panics_witness :
    (∃ v, (chars "generic", v) ∈ [(chars "generic", [chars "g"])]) ∧
    (parseKey (chars "generic") = none ∧
      selectCmds [(chars "generic", [chars "g"])] ⟨[], [], [], [], [], []⟩ =
        SelectResult.panic) :=
  ⟨⟨[chars "g"], by decide⟩,
    c4_generic_key_panics [(chars "generic", [chars "g"])] ⟨[], [], [], [], [], []⟩
      ⟨[chars "g"], by decide⟩⟩

/-- The rule set of the §8 last-match scenario: Rule A wildcarded with
commands `[g]`, Rule B `vendor: cisco` with commands `[c]`, in that
declaration order. -/
def cfgC2 : List cmdSet :=
  [⟨[], [], [], [], [], [], [chars "g"]⟩,
   ⟨[], [], chars "cisco", [], [], [], [chars "c"]⟩]

/-- A device identity whose vendor is cisco. -/
def clientC2 : Client :=
  ⟨chars "10.0.0.1", chars "sw1", chars "cisco", chars "ios", chars "c3650", chars "15.2"⟩

/-- C2 (divergence witness): in the spec scenario — generic Rule A
(commands `[g]`) plus Rule B with `vendor: cisco` (commands `[c]`) and a
cisco identity — the mapped set holds the key `"generic"`, so whatever
iteration order Go picks for the map, the selection step panics instead of
returning `[c]` or `[g]`. -/
theorem c2_last_match_scenario_panics :
    ∀ order : CmdMap, order.Perm (MapCmds cfgC2) →
      selectCmds order clientC2 = SelectResult.panic := by
  intro order hperm
  have hmem : (chars "generic", [chars "g"]) ∈ MapCmds cfgC2 := by decide
  exact selectCmds_panic_of_bad_key order clientC2
    ⟨(chars "generic", [chars "g"]), hperm.mem_iff.mpr hmem, by decide⟩

/-- C2 witness: the insertion order itself is one possible iteration order,
and there the selection step panics. -/
theorem c2_last_match_scenario_panics_witness :
    selectCmds (MapCmds cfgC2) clientC2 = SelectResult.panic :=
  c2_last_match_scenario_panics (MapCmds cfgC2) (List.Perm.refl _)

/-- A rule set holding only the fully-wildcarded rule. -/
def cfgC3 : List cmdSet := [⟨[], [], [], [], [], [], [chars "g"]⟩]

/-- A rule set holding only a `vendor: cisco` rule (no generic rule). -/
def cfgC3b : List cmdSet := [⟨[], [], chars "cisco", [], [], [], [chars "c"]⟩]

/-- An HP identity that matches no cisco rule. -/
def clientC3 : Client :=
  ⟨chars "10.0.0.2", chars "sw2", chars "hp", chars "comware", [], []⟩

/-- A cisco identity that matches the cisco rule of `cfgC3b`. -/
def clientC3cisco : Client :=
  ⟨chars "10.0.0.3", chars "sw3", chars "cisco", chars "ios", [], []⟩

/-- Host environment for the C3 run: host `h1` dials to the HP identity,
every other host to the cisco identity; command runs succeed. -/
def envC3 : Str → HostEnv := fun h =>
  if h = chars "h1" then ⟨.ok clientC3, fun _ => .ok (chars "out1")⟩
  else ⟨.ok clientC3cisco, fun _ => .ok (chars "out2")⟩

/-- C3 (divergence witness): with a generic rule present the selection step
panics instead of falling back to its commands; with no generic rule and no
field-specific match the outcome is the `"no commands to run"` per-host
error, and the `configure` worker continues to the next host in the
queue. -/
theorem c3_generic_fallback_unreachable :
    MapCmds cfgC3 = [(chars "generic", [chars "g"])] ∧
    selectCmds (MapCmds cfgC3) clientC3 = SelectResult.panic ∧
    selectCmds (MapCmds cfgC3b) clientC3 = SelectResult.noMatch ∧
    workerConfigure (MapCmds cfgC3b) envC3 [chars "h1", chars "h2"] =
      some [⟨chars "h1", none, some (chars "no commands to run")⟩,
            ⟨clientString clientC3cisco, some (chars "out2"), none⟩] := by
  refine ⟨by decide, by decide, by decide, by decide⟩

/-- Rule set with two field-specific rules both matching the same identity:
`vendor: cisco → [c]` and `os: ios → [i]`. -/
def cfgC5 : List cmdSet :=
  [⟨[], [], chars "cisco", [], [], [], [chars "c"]⟩,
   ⟨[], [], [], chars "ios", [], [], [chars "i"]⟩]

/-- An identity matching both rules of `cfgC5`. -/
def clientC5 : Client :=
  ⟨chars "10.0.0.1", chars "sw1", chars "cisco", chars "ios", chars "c3650", chars "15.2"⟩

/-- C5 (divergence witness): the same mapped command set, iterated in two
orders a Go map range may legally produce, yields two different selected
command lists for the same identity — the selection step is a function of
the map iteration order, not of declaration order alone. -/
theorem c5_selection_order_dependent :
    ((MapCmds cfgC5).reverse).Perm (MapCmds cfgC5) ∧
    selectCmds (MapCmds cfgC5) clientC5 = SelectResult.cmds [chars "i"] ∧
    selectCmds ((MapCmds cfgC5).reverse) clientC5 = SelectResult.cmds [chars "c"] ∧
    SelectResult.cmds [chars "i"] ≠ SelectResult.cmds [chars "c"] :=
  ⟨List.reverse_perm _, by decide, by decide, by decide⟩

/-- The mapped command set used in the C6 scenario: one cisco rule. -/
def entriesC6 : CmdMap := MapCmds [⟨[], [], chars "cisco", [], [], [], [chars "c"]⟩]

/-- The cisco identity host `h2` dials to in the C6 scenario. -/
def clientC6 : Client :=
  ⟨chars "10.0.0.2", chars "sw2", chars "cisco", chars "ios", [], []⟩

/-- Host environment for the C6 run: dialling `h1` fails, dialling any
other host yields the cisco identity and a successful command run. -/
def envC6 : Str → HostEnv := fun h =>
  if h = chars "h1" then ⟨.error (chars "connection refused"), fun _ => .ok []⟩
  else ⟨.ok clientC6, fun _ => .ok (chars "done")⟩

/-- C6 (divergence witness): on the queue `[h1, h2]` where dialling `h1`
fails, the earlier `connect` worker emits the error result for `h1` and
then returns, so `h2` is never processed; the later `configure` worker
emits the error result and continues, producing one result per host. -/
theorem c6_connect_stops_after_failure :
    workerConnect entriesC6 envC6 [chars "h1", chars "h2"] =
      some [⟨chars "h1", none, some (chars "connection refused")⟩] ∧
    workerConfigure entriesC6 envC6 [chars "h1", chars "h2"] =
      some [⟨chars "h1", none, some (chars "failed to dial h1: connection refused")⟩,
            ⟨clientString clientC6, some (chars "done"), none⟩] := by
  refine ⟨by decide, by decide⟩

/-- C8: the identity parser is total and returns a map carrying exactly the
six fields addr, hostname, vendor, os, model, version (empty string meaning
unknown), for every input and every behaviour of the vendor regexes; and
when the input contains none of the vendor cue substrings (`"Cisco"`,
`"Hewlett Packard"`, `"HP"`, `"ProCurve"`), vendor, os, model and version
are all empty. -/
theorem c8_parser_total (f : FindFns) (d : Str) :
    (parseSysDescr f d).map Prod.fst =
      [chars "addr", chars "hostname", chars "vendor",
       chars "os", chars "model", chars "version"] ∧
    (hasSub (chars "Cisco") d = false → hasSub (chars "Hewlett Packard") d = false →
      hasSub (chars "HP") d = false → hasSub (chars "ProCurve") d = false →
      getKV (parseSysDescr f d) (chars "vendor") = [] ∧
      getKV (parseSysDescr f d) (chars "os") = [] ∧
      getKV (parseSysDescr f d) (chars "model") = [] ∧
      getKV (parseSysDescr f d) (chars "version") = []) := by
  constructor
  · unfold parseSysDescr
    repeat' split
    all_goals rfl
  · intro h1 h2 h3 h4
    unfold parseSysDescr
    simp only [h1, h2, h3, h4]
    exact ⟨rfl, rfl, rfl, rfl⟩

/-- C8 witness: the theorem applied to concrete regex stubs and the cueless
input `"unrelated box"`. -/
theorem c8_parser_total_witness :
    (parseSysDescr ⟨fun _ => [], fun _ => [], fun _ => [], fun _ => [], fun _ => [],
        fun _ => []⟩ (chars "unrelated box")).map Prod.fst =
      [chars "addr", chars "hostname", chars "vendor",
       chars "os", chars "model", chars "version"] ∧
    (getKV (parseSysDescr ⟨fun _ => [], fun _ => [], fun _ => [], fun _ => [], fun _ => [],
        fun _ => []⟩ (chars "unrelated box")) (chars "vendor") = [] ∧
      getKV (parseSysDescr ⟨fun _ => [], fun _ => [], fun _ => [], fun _ => [], fun _ => [],
        fun _ => []⟩ (chars "unrelated box")) (chars "os") = [] ∧
      getKV (parseSysDescr ⟨fun _ => [], fun _ => [], fun _ => [], fun _ => [], fun _ => [],
        fun _ => []⟩ (chars "unrelated box")) (chars "model") = [] ∧
      getKV (parseSysDescr ⟨fun _ => [], fun _ => [], fun _ => [], fun _ => [], fun _ => [],
        fun _ => []⟩ (chars "unrelated box")) (chars "version") = []) := by
  have h := c8_parser_total
    ⟨fun _ => [], fun _ => [], fun _ => [], fun _ => [], fun _ => [], fun _ => []⟩
    (chars "unrelated box")
  exact ⟨h.1, h.2 (by decide) (by decide) (by decide) (by decide)⟩

/-- C9: when the management-protocol probe fails (client error, protocol
error or timeout), the device identifier still returns an identity map:
vendor, os, model and version are empty, while the probed address and the
reverse-lookup hostname (first name, or empty on lookup failure) are merged
into the result. -/
theorem c9_probe_failure_degrades (f : FindFns) (addr : Str) (names : Option (List Str)) :
    getKV (sysDescr f addr names (.error ())) (chars "vendor") = [] ∧
    getKV (sysDescr f addr names (.error ())) (chars "os") = [] ∧
    getKV (sysDescr f addr names (.error ())) (chars "model") = [] ∧
    getKV (sysDescr f addr names (.error ())) (chars "version") = [] ∧
    getKV (sysDescr f addr names (.error ())) (chars "addr") = addr ∧
    getKV (sysDescr f addr names (.error ())) (chars "hostname") = hostnameFromLookup names :=
  ⟨rfl, rfl, rfl, rfl, rfl, rfl⟩

/-- C10: once the SSH session exists, every exit path of `Run` closes it —
including the success path — and when the `select` is decided by the
`time.After(Timeout)` timer rather than by session completion, `Run`
returns the error `"session timed out"`. -/
theorem c10_run_timeout_and_close (env : RunEnv) (cmds : List Str)
    (hs : env.newSession = .ok ()) :
    SessionEvent.closeSession ∈ (RunSession env cmds).2 ∧
    (env.pipes = .ok () → env.shell = .ok () → writeLoop env.write cmds = none →
      env.wait = .timedOut →
      (RunSession env cmds).1 = .error (chars "session timed out")) := by
  rcases env with ⟨ns, p, sh, w, wt, ra⟩
  simp only at hs
  subst hs
  constructor
  · unfold RunSession
    rcases p with e | u
    · exact List.mem_singleton.mpr rfl
    · rcases sh with e | u'
      · simp
      · rcases hw : writeLoop w cmds with _ | e
        · rcases wt with werr | _
          · rcases werr with _ | we
            · rcases ra with e | out <;> simp
            · rcases we with _ | _ | msg
              · rcases ra with e | out <;> simp
              · rcases ra with e | out <;> simp
              · simp
          · simp
        · simp
  · intro hp hsh hwl hwt
    simp only at hp hsh hwt
    subst hp; subst hsh; subst hwt
    unfold RunSession
    rw [hwl]

/-- C10 witness: a concrete timed-out session run. -/
theorem c10_run_timeout_and_close_witness :
    SessionEvent.closeSession ∈
      (RunSession ⟨.ok (), .ok (), .ok (), fun _ => none, .timedOut, .ok []⟩
        [chars "show version"]).2 ∧
    (RunSession ⟨.ok (), .ok (), .ok (), fun _ => none, .timedOut, .ok []⟩
        [chars "show version"]).1 = .error (chars "session timed out") := by
  have h := c10_run_timeout_and_close
    ⟨.ok (), .ok (), .ok (), fun _ => none, .timedOut, .ok []⟩ [chars "show version"] rfl
  exact ⟨h.1, h.2 rfl rfl rfl rfl⟩

/-! ### Round-trip analysis of the stringified match keys (claim C1) -/

/-- A printable-ASCII character that survives the key round trip: Go `%q`
leaves it unescaped and the worker's re-parsing never treats it as a
separator (no comma, colon, double quote or backslash). -/
def plainChar (c : Char) : Prop :=
  32 ≤ c.toNat ∧ c.toNat ≤ 126 ∧ c ≠ ',' ∧ c ≠ ':' ∧ c ≠ '"' ∧ c ≠ '\\'

/-- A field value that survives the key round trip: plain characters only,
and its lower-casing is already trimmed (no leading or trailing blanks). -/
def cleanStr (s : Str) : Prop :=
  (∀ c ∈ s, plainChar c) ∧ trimStr (lowerStr s) = lowerStr s

/-- A rule all of whose field values and listed models are clean. -/
def cleanSet (set : cmdSet) : Prop :=
  cleanStr set.addr ∧ cleanStr set.hostname ∧ cleanStr set.vendor ∧
  cleanStr set.os ∧ cleanStr set.version ∧ ∀ mdl ∈ set.models, cleanStr mdl

/-- The model instances a rule expands to (the two branches of `rawKeys`):
its listed models, or the single empty model. -/
def effModels (set : cmdSet) : List Str :=
  if set.models.length > 0 then set.models else [[]]

/-- The stored key of one model instance of a rule. -/
def keyOf (set : cmdSet) (mdl : Str) : Str :=
  normKey (keyFmt set.addr set.hostname set.vendor set.os mdl set.version)

/-- Structured, case-insensitive rule-instance match, the reading of §4.1:
every field the rule sets (with `mdl` as its model) equals the identity
field after ASCII lower-casing; unset fields impose no constraint. -/
def matchesIdent (set : cmdSet) (mdl : Str) (c : Client) : Prop :=
  (set.addr ≠ [] → lowerStr set.addr = lowerStr c.addr) ∧
  (set.hostname ≠ [] → lowerStr set.hostname = lowerStr c.hostname) ∧
  (set.vendor ≠ [] → lowerStr set.vendor = lowerStr c.vendor) ∧
  (set.os ≠ [] → lowerStr set.os = lowerStr c.os) ∧
  (mdl ≠ [] → lowerStr mdl = lowerStr c.model) ∧
  (set.version ≠ [] → lowerStr set.version = lowerStr c.version)

lemma clean_no_comma {s : Str} (hs : cleanStr s) : ',' ∉ s :=
  fun hm => (hs.1 _ hm).2.2.1 rfl

lemma clean_no_colon {s : Str} (hs : cleanStr s) : ':' ∉ s :=
  fun hm => (hs.1 _ hm).2.2.2.1 rfl

lemma clean_no_quote {s : Str} (hs : cleanStr s) : '"' ∉ s :=
  fun hm => (hs.1 _ hm).2.2.2.2.1 rfl

lemma clean_no_backslash {s : Str} (hs : cleanStr s) : '\\' ∉ s :=
  fun hm => (hs.1 _ hm).2.2.2.2.2 rfl

lemma rawKeys_eq_map (set : cmdSet) :
    rawKeys set =
      (effModels set).map
        (fun mdl => keyFmt set.addr set.hostname set.vendor set.os mdl set.version) := by
  unfold rawKeys effModels
  split <;> simp

/-- Splitting a string that does not contain the separator. -/
lemma splitOnChar_no_sep {sep : Char} : ∀ {xs : Str}, sep ∉ xs → splitOnChar sep xs = [xs] := by
  intro xs
  induction xs with
  | nil => intro _; rfl
  | cons c cs ih =>
    intro h
    have hc : ¬c = sep := fun he => h (he ▸ List.mem_cons_self ..)
    have hcs : sep ∉ cs := fun hm => h (List.mem_cons_of_mem _ hm)
    show (let r := splitOnChar sep cs
      if c = sep then [] :: r else (c :: r.headD []) :: r.tail) = _
    rw [ih hcs]
    simp [if_neg hc]

/-- Splitting at the first separator occurrence. -/
lemma splitOnChar_append {sep : Char} :
    ∀ {xs : Str} (ys : Str), sep ∉ xs →
      splitOnChar sep (xs ++ sep :: ys) = xs :: splitOnChar sep ys := by
  intro xs
  induction xs with
  | nil =>
    intro ys _
    rw [List.nil_append]
    simp [splitOnChar]
  | cons c cs ih =>
    intro ys h
    have hc : ¬c = sep := fun he => h (he ▸ List.mem_cons_self ..)
    have hcs : sep ∉ cs := fun hm => h (List.mem_cons_of_mem _ hm)
    show (let r := splitOnChar sep (cs ++ sep :: ys)
      if c = sep then [] :: r else (c :: r.headD []) :: r.tail) = _
    rw [ih ys hcs]
    simp [if_neg hc]

/-- A piece of the key with exactly one colon splits into name and value. -/
lemma split_colon_piece {N R : Str} (hN : ':' ∉ N) (hR : ':' ∉ R) :
    splitOnChar ':' (N ++ ':' :: R) = [N, R] := by
  rw [splitOnChar_append R hN, splitOnChar_no_sep hR]

/-- Go `%q` of a string with no quotes and no backslashes just wraps it. -/
lemma goQuote_plain {s : Str} (hq : '"' ∉ s) (hb : '\\' ∉ s) :
    goQuote s = '"' :: (s ++ ['"']) := by
  unfold goQuote
  have : (s.map quoteChar).flatten = s := by
    induction s with
    | nil => rfl
    | cons c cs ih =>
      have hc1 : ¬c = '"' := fun he => hq (he ▸ List.mem_cons_self ..)
      have hc2 : ¬c = '\\' := fun he => hb (he ▸ List.mem_cons_self ..)
      have hq' : '"' ∉ cs := fun hm => hq (List.mem_cons_of_mem _ hm)
      have hb' : '\\' ∉ cs := fun hm => hb (List.mem_cons_of_mem _ hm)
      simp only [List.map_cons, List.flatten_cons, quoteChar, if_neg hc1, if_neg hc2,
        List.singleton_append, ih hq' hb']
  rw [this, List.cons_append]

/-- `TrimSpace` drops a single leading blank. -/
lemma trimStr_cons_space (s : Str) : trimStr (' ' :: s) = trimStr s := by
  unfold trimStr
  rw [List.dropWhile_cons]
  simp [isWS]

/-- A string that starts and ends with non-blank characters is unchanged by
`TrimSpace`. -/
lemma trimStr_of_ends (c d : Char) (hc : isWS c = false) (hd : isWS d = false) (xs : Str) :
    trimStr (c :: (xs ++ [d])) = c :: (xs ++ [d]) := by
  unfold trimStr
  rw [List.dropWhile_cons, hc]
  simp only [Bool.false_eq_true, if_false]
  have h1 : (c :: (xs ++ [d])).reverse = d :: (xs.reverse ++ [c]) := by
    simp
  rw [h1, List.dropWhile_cons, hd]
  simp only [Bool.false_eq_true, if_false]
  simp

lemma notMem_append {x : Char} {L M : Str} (h1 : x ∉ L) (h2 : x ∉ M) : x ∉ L ++ M :=
  fun hm => (List.mem_append.mp hm).elim h1 h2

lemma notMem_cons {x c : Char} (hx : ¬x = c) {s : Str} (hs : x ∉ s) : x ∉ c :: s :=
  fun hm => (List.mem_cons.mp hm).elim hx hs

lemma notMem_quoted {x : Char} (hx : ¬x = '"') {f : Str} (hf : x ∉ f) :
    x ∉ '"' :: (f ++ ['"']) :=
  notMem_cons hx (notMem_append hf (notMem_cons hx (List.not_mem_nil x)))

lemma removeChar_id {x : Char} {s : Str} (h : x ∉ s) : removeChar x s = s := by
  unfold removeChar
  rw [List.filter_eq_self]
  intro a ha
  have hne : a ≠ x := fun he => h (he ▸ ha)
  simp [hne]

lemma trim_lower_space {f : Str} (hf : cleanStr f) :
    trimStr (lowerStr (' ' :: f)) = lowerStr f := by
  have hsp : lowerChar ' ' = ' ' := by decide
  rw [lowerStr, List.map_cons, hsp]
  rw [show List.map lowerChar f = lowerStr f from rfl, trimStr_cons_space]
  exact hf.2

/-- The worker's value normalisation on an unquoted key field (`IP Addr`). -/
lemma parsedVal_plain {f : Str} (hf : cleanStr f) :
    trimStr (lowerStr (removeChar '"' (' ' :: f))) = lowerStr f := by
  rw [removeChar_id (notMem_cons (by decide) (clean_no_quote hf))]
  exact trim_lower_space hf

/-- The worker's value normalisation on a `%q`-quoted key field. -/
lemma parsedVal_quoted {f : Str} (hf : cleanStr f) :
    trimStr (lowerStr (removeChar '"' (' ' :: '"' :: (f ++ ['"'])))) = lowerStr f := by
  have h1 : removeChar '"' (' ' :: '"' :: (f ++ ['"'])) = ' ' :: f := by
    show (' ' :: '"' :: (f ++ ['"'])).filter (fun x => !(x == '"')) = ' ' :: f
    rw [List.filter_cons_of_pos (by decide), List.filter_cons_of_neg (by decide),
      List.filter_append]
    rw [List.filter_eq_self.mpr, show ['"'].filter (fun x => !(x == '"')) = [] from rfl,
      List.append_nil]
    intro a ha
    have hne : a ≠ '"' := fun he => clean_no_quote hf (he ▸ ha)
    simp [hne]
  rw [h1]
  exact trim_lower_space hf

lemma trimStr_eq_self_of2 {s : Str} (hf : s.dropWhile isWS = s)
    (hb : s.reverse.dropWhile isWS = s.reverse) : trimStr s = s := by
  unfold trimStr
  rw [hf, hb, List.reverse_reverse]

/-- A built key starts with `I` and ends with `"`, so the whole-key
`TrimSpace` in `mapCmd` leaves it unchanged. -/
lemma trimStr_keyFmt (a h v o m ver : Str) :
    trimStr (keyFmt a h v o m ver) = keyFmt a h v o m ver := by
  have hrev : (keyFmt a h v o m ver).reverse =
      '"' :: (('"' :: (ver.map quoteChar).flatten).reverse ++
        (chars "IP Addr: " ++ a ++ chars ", Hostname: " ++ goQuote h ++
         chars ", Vendor: " ++ goQuote v ++ chars ", OS: " ++ goQuote o ++
         chars ", Model: " ++ goQuote m ++ chars ", Version: ").reverse) := by
    rw [keyFmt]
    rw [List.reverse_append]
    rw [goQuote]
    rw [List.reverse_append]
    rw [List.append_assoc]
    rfl
  have hfront : (keyFmt a h v o m ver).dropWhile isWS = keyFmt a h v o m ver := by
    obtain ⟨t, ht⟩ : ∃ t, keyFmt a h v o m ver = 'I' :: t := ⟨_, rfl⟩
    rw [ht, List.dropWhile_cons]
    simp only [show isWS 'I' = false from by decide, Bool.false_eq_true, if_false]
  have hback : (keyFmt a h v o m ver).reverse.dropWhile isWS =
      (keyFmt a h v o m ver).reverse := by
    rw [hrev, List.dropWhile_cons]
    simp only [show isWS '"' = false from by decide, Bool.false_eq_true, if_false]
  exact trimStr_eq_self_of2 hfront hback

/-- The worker re-parses a clean built key into exactly the six lower-cased
field values of the rule instance it was built from. -/
lemma parseKey_keyFmt (a h v o m ver : Str) (ha : cleanStr a) (hh : cleanStr h)
    (hv : cleanStr v) (ho : cleanStr o) (hm : cleanStr m) (hver : cleanStr ver) :
    parseKey (keyFmt a h v o m ver) =
      some [(chars "IP Addr", lowerStr a), (chars "Hostname", lowerStr h),
            (chars "Vendor", lowerStr v), (chars "OS", lowerStr o),
            (chars "Model", lowerStr m), (chars "Version", lowerStr ver)] := by
  have hq_h := goQuote_plain (clean_no_quote hh) (clean_no_backslash hh)
  have hq_v := goQuote_plain (clean_no_quote hv) (clean_no_backslash hv)
  have hq_o := goQuote_plain (clean_no_quote ho) (clean_no_backslash ho)
  have hq_m := goQuote_plain (clean_no_quote hm) (clean_no_backslash hm)
  have hq_ver := goQuote_plain (clean_no_quote hver) (clean_no_backslash hver)
  have key_eq : keyFmt a h v o m ver =
      (chars "IP Addr: " ++ a) ++ ',' ::
        ((chars " Hostname: " ++ ('"' :: (h ++ ['"']))) ++ ',' ::
          ((chars " Vendor: " ++ ('"' :: (v ++ ['"']))) ++ ',' ::
            ((chars " OS: " ++ ('"' :: (o ++ ['"']))) ++ ',' ::
              ((chars " Model: " ++ ('"' :: (m ++ ['"']))) ++ ',' ::
                (chars " Version: " ++ ('"' :: (ver ++ ['"']))))))) := by
    rw [keyFmt, hq_h, hq_v, hq_o, hq_m, hq_ver]
    simp only [show chars ", Hostname: " = ',' :: chars " Hostname: " from rfl,
      show chars ", Vendor: " = ',' :: chars " Vendor: " from rfl,
      show chars ", OS: " = ',' :: chars " OS: " from rfl,
      show chars ", Model: " = ',' :: chars " Model: " from rfl,
      show chars ", Version: " = ',' :: chars " Version: " from rfl]
    simp [List.append_assoc]
  have hc0 : ',' ∉ chars "IP Addr: " ++ a :=
    notMem_append (by decide) (clean_no_comma ha)
  have hc1 : ',' ∉ chars " Hostname: " ++ ('"' :: (h ++ ['"'])) :=
    notMem_append (by decide) (notMem_quoted (by decide) (clean_no_comma hh))
  have hc2 : ',' ∉ chars " Vendor: " ++ ('"' :: (v ++ ['"'])) :=
    notMem_append (by decide) (notMem_quoted (by decide) (clean_no_comma hv))
  have hc3 : ',' ∉ chars " OS: " ++ ('"' :: (o ++ ['"'])) :=
    notMem_append (by decide) (notMem_quoted (by decide) (clean_no_comma ho))
  have hc4 : ',' ∉ chars " Model: " ++ ('"' :: (m ++ ['"'])) :=
    notMem_append (by decide) (notMem_quoted (by decide) (clean_no_comma hm))
  have hc5 : ',' ∉ chars " Version: " ++ ('"' :: (ver ++ ['"'])) :=
    notMem_append (by decide) (notMem_quoted (by decide) (clean_no_comma hver))
  have hsplit : splitOnChar ',' (keyFmt a h v o m ver) =
      [chars "IP Addr: " ++ a,
       chars " Hostname: " ++ ('"' :: (h ++ ['"'])),
       chars " Vendor: " ++ ('"' :: (v ++ ['"'])),
       chars " OS: " ++ ('"' :: (o ++ ['"'])),
       chars " Model: " ++ ('"' :: (m ++ ['"'])),
       chars " Version: " ++ ('"' :: (ver ++ ['"']))] := by
    rw [key_eq, splitOnChar_append _ hc0, splitOnChar_append _ hc1, splitOnChar_append _ hc2,
      splitOnChar_append _ hc3, splitOnChar_append _ hc4, splitOnChar_no_sep hc5]
  have s0 : splitOnChar ':' (chars "IP Addr: " ++ a) = [chars "IP Addr", ' ' :: a] := by
    rw [show chars "IP Addr: " ++ a = chars "IP Addr" ++ ':' :: (' ' :: a) from rfl]
    exact split_colon_piece (by decide) (notMem_cons (by decide) (clean_no_colon ha))
  have s1 : splitOnChar ':' (chars " Hostname: " ++ ('"' :: (h ++ ['"']))) =
      [chars " Hostname", ' ' :: '"' :: (h ++ ['"'])] := by
    rw [show chars " Hostname: " ++ ('"' :: (h ++ ['"'])) =
      chars " Hostname" ++ ':' :: (' ' :: '"' :: (h ++ ['"'])) from rfl]
    exact split_colon_piece (by decide)
      (notMem_cons (by decide) (notMem_quoted (by decide) (clean_no_colon hh)))
  have s2 : splitOnChar ':' (chars " Vendor: " ++ ('"' :: (v ++ ['"']))) =
      [chars " Vendor", ' ' :: '"' :: (v ++ ['"'])] := by
    rw [show chars " Vendor: " ++ ('"' :: (v ++ ['"'])) =
      chars " Vendor" ++ ':' :: (' ' :: '"' :: (v ++ ['"'])) from rfl]
    exact split_colon_piece (by decide)
      (notMem_cons (by decide) (notMem_quoted (by decide) (clean_no_colon hv)))
  have s3 : splitOnChar ':' (chars " OS: " ++ ('"' :: (o ++ ['"']))) =
      [chars " OS", ' ' :: '"' :: (o ++ ['"'])] := by
    rw [show chars " OS: " ++ ('"' :: (o ++ ['"'])) =
      chars " OS" ++ ':' :: (' ' :: '"' :: (o ++ ['"'])) from rfl]
    exact split_colon_piece (by decide)
      (notMem_cons (by decide) (notMem_quoted (by decide) (clean_no_colon ho)))
  have s4 : splitOnChar ':' (chars " Model: " ++ ('"' :: (m ++ ['"']))) =
      [chars " Model", ' ' :: '"' :: (m ++ ['"'])] := by
    rw [show chars " Model: " ++ ('"' :: (m ++ ['"'])) =
      chars " Model" ++ ':' :: (' ' :: '"' :: (m ++ ['"'])) from rfl]
    exact split_colon_piece (by decide)
      (notMem_cons (by decide) (notMem_quoted (by decide) (clean_no_colon hm)))
  have s5 : splitOnChar ':' (chars " Version: " ++ ('"' :: (ver ++ ['"']))) =
      [chars " Version", ' ' :: '"' :: (ver ++ ['"'])] := by
    rw [show chars " Version: " ++ ('"' :: (ver ++ ['"'])) =
      chars " Version" ++ ':' :: (' ' :: '"' :: (ver ++ ['"'])) from rfl]
    exact split_colon_piece (by decide)
      (notMem_cons (by decide) (notMem_quoted (by decide) (clean_no_colon hver)))
  rw [parseKey, hsplit]
  simp only [List.foldlM, s0, s1, s2, s3, s4, s5]
  simp only [show trimStr (chars "IP Addr") = chars "IP Addr" from by decide,
    show trimStr (chars " Hostname") = chars "Hostname" from by decide,
    show trimStr (chars " Vendor") = chars "Vendor" from by decide,
    show trimStr (chars " OS") = chars "OS" from by decide,
    show trimStr (chars " Model") = chars "Model" from by decide,
    show trimStr (chars " Version") = chars "Version" from by decide]
  simp only [parsedVal_plain ha, parsedVal_quoted hh, parsedVal_quoted hv,
    parsedVal_quoted ho, parsedVal_quoted hm, parsedVal_quoted hver]
  rfl

lemma cleanStr_nil : cleanStr [] :=
  ⟨fun c hc => absurd hc (List.not_mem_nil c), rfl⟩

lemma getKV_cons_eq {k v : Str} {rest : List (Str × Str)} :
    getKV ((k, v) :: rest) k = v := by
  simp [getKV]

lemma getKV_cons_ne {k v q : Str} {rest : List (Str × Str)} (hne : ¬k = q) :
    getKV ((k, v) :: rest) q = getKV rest q := by
  simp [getKV, hne]

/-- The worker's six-field test on a parsed clean key, characterised: it
accepts exactly when every non-empty field agrees with the lower-cased
identity field. -/
lemma mismatch_parsed_eq_false (a h v o m ver : Str) (c : Client) :
    (mismatch [(chars "IP Addr", lowerStr a), (chars "Hostname", lowerStr h),
               (chars "Vendor", lowerStr v), (chars "OS", lowerStr o),
               (chars "Model", lowerStr m), (chars "Version", lowerStr ver)] c = false) ↔
      ((a = [] ∨ lowerStr a = lowerStr c.addr) ∧
       (h = [] ∨ lowerStr h = lowerStr c.hostname) ∧
       (v = [] ∨ lowerStr v = lowerStr c.vendor) ∧
       (o = [] ∨ lowerStr o = lowerStr c.os) ∧
       (m = [] ∨ lowerStr m = lowerStr c.model) ∧
       (ver = [] ∨ lowerStr ver = lowerStr c.version)) := by
  unfold mismatch
  rw [show getKV [(chars "IP Addr", lowerStr a), (chars "Hostname", lowerStr h),
      (chars "Vendor", lowerStr v), (chars "OS", lowerStr o),
      (chars "Model", lowerStr m), (chars "Version", lowerStr ver)] (chars "IP Addr") =
      lowerStr a from getKV_cons_eq]
  rw [show getKV [(chars "IP Addr", lowerStr a), (chars "Hostname", lowerStr h),
      (chars "Vendor", lowerStr v), (chars "OS", lowerStr o),
      (chars "Model", lowerStr m), (chars "Version", lowerStr ver)] (chars "Hostname") =
      lowerStr h from by
    rw [getKV_cons_ne (by decide), getKV_cons_eq]]
  rw [show getKV [(chars "IP Addr", lowerStr a), (chars "Hostname", lowerStr h),
      (chars "Vendor", lowerStr v), (chars "OS", lowerStr o),
      (chars "Model", lowerStr m), (chars "Version", lowerStr ver)] (chars "Vendor") =
      lowerStr v from by
    rw [getKV_cons_ne (by decide), getKV_cons_ne (by decide), getKV_cons_eq]]
  rw [show getKV [(chars "IP Addr", lowerStr a), (chars "Hostname", lowerStr h),
      (chars "Vendor", lowerStr v), (chars "OS", lowerStr o),
      (chars "Model", lowerStr m), (chars "Version", lowerStr ver)] (chars "OS") =
      lowerStr o from by
    rw [getKV_cons_ne (by decide), getKV_cons_ne (by decide), getKV_cons_ne (by decide),
      getKV_cons_eq]]
  rw [show getKV [(chars "IP Addr", lowerStr a), (chars "Hostname", lowerStr h),
      (chars "Vendor", lowerStr v), (chars "OS", lowerStr o),
      (chars "Model", lowerStr m), (chars "Version", lowerStr ver)] (chars "Model") =
      lowerStr m from by
    rw [getKV_cons_ne (by decide), getKV_cons_ne (by decide), getKV_cons_ne (by decide),
      getKV_cons_ne (by decide), getKV_cons_eq]]
  rw [show getKV [(chars "IP Addr", lowerStr a), (chars "Hostname", lowerStr h),
      (chars "Vendor", lowerStr v), (chars "OS", lowerStr o),
      (chars "Model", lowerStr m), (chars "Version", lowerStr ver)] (chars "Version") =
      lowerStr ver from by
    rw [getKV_cons_ne (by decide), getKV_cons_ne (by decide), getKV_cons_ne (by decide),
      getKV_cons_ne (by decide), getKV_cons_ne (by decide), getKV_cons_eq]]
  simp only [Bool.or_eq_false_iff, Bool.and_eq_false_iff, bne_eq_false_iff_eq,
    lowerStr, List.map_eq_nil_iff, and_assoc]

/-- A clean key collides with the all-empty sentinel only when every field
is itself empty. -/
lemma clean_keyFmt_sentinel {a h v o m ver : Str} (ha : cleanStr a) (hh : cleanStr h)
    (hv : cleanStr v) (ho : cleanStr o) (hm : cleanStr m) (hver : cleanStr ver)
    (he : keyFmt a h v o m ver = genericSentinel) :
    a = [] ∧ h = [] ∧ v = [] ∧ o = [] ∧ m = [] ∧ ver = [] := by
  have h1 := parseKey_keyFmt a h v o m ver ha hh hv ho hm hver
  rw [he] at h1
  have h2 : parseKey genericSentinel =
      some [(chars "IP Addr", []), (chars "Hostname", []), (chars "Vendor", []),
            (chars "OS", []), (chars "Model", []), (chars "Version", [])] := by decide
  rw [h2] at h1
  injection h1 with h1
  simp only [List.cons.injEq, Prod.mk.injEq, and_true, true_and] at h1
  obtain ⟨e1, e2, e3, e4, e5, e6⟩ := h1
  refine ⟨?_, ?_, ?_, ?_, ?_, ?_⟩
  · exact List.map_eq_nil_iff.mp e1.symm
  · exact List.map_eq_nil_iff.mp e2.symm
  · exact List.map_eq_nil_iff.mp e3.symm
  · exact List.map_eq_nil_iff.mp e4.symm
  · exact List.map_eq_nil_iff.mp e5.symm
  · exact List.map_eq_nil_iff.mp e6.symm

/-- What is true of every entry of a mapped command set: its key is the
stored key of some model instance of a declared rule, and every command in
its list was declared by a rule whose instance produced that same key. -/
def entryOK (cfg : List cmdSet) (kv : Str × List Str) : Prop :=
  (∃ set ∈ cfg, ∃ mdl ∈ effModels set, kv.1 = keyOf set mdl) ∧
  (∀ cmd ∈ kv.2, ∃ set ∈ cfg, cmd ∈ set.cmds ∧ ∃ mdl ∈ effModels set, kv.1 = keyOf set mdl)

lemma entryOK_upsert (cfg : List cmdSet) (k c : Str)
    (hk : ∃ set ∈ cfg, c ∈ set.cmds ∧ ∃ mdl ∈ effModels set, k = keyOf set mdl) :
    ∀ (mm : CmdMap), (∀ kv ∈ mm, entryOK cfg kv) → ∀ kv ∈ upsert mm k c, entryOK cfg kv := by
  intro mm
  induction mm with
  | nil =>
    intro _ kv hkv
    unfold upsert at hkv
    rcases List.mem_singleton.mp hkv with rfl
    rcases hk with ⟨set, hset, hc, mdl, hmdl, hkey⟩
    refine ⟨⟨set, hset, mdl, hmdl, hkey⟩, ?_⟩
    intro cmd hcmd
    rcases List.mem_singleton.mp hcmd with rfl
    exact ⟨set, hset, hc, mdl, hmdl, hkey⟩
  | cons kv0 rest ih =>
    intro hm kv hkv
    rcases kv0 with ⟨k0, vs⟩
    unfold upsert at hkv
    by_cases he : k0 = k
    · rw [if_pos he] at hkv
      rcases List.mem_cons.mp hkv with rfl | hkv2
      · have hold : entryOK cfg (k0, vs) := hm _ (List.mem_cons_self ..)
        refine ⟨hold.1, ?_⟩
        intro cmd hcmd
        rcases List.mem_append.mp hcmd with hcm | hcm
        · exact hold.2 cmd hcm
        · rcases List.mem_singleton.mp hcm with rfl
          rcases hk with ⟨set, hset, hc, mdl, hmdl, hkey⟩
          exact ⟨set, hset, hc, mdl, hmdl, he ▸ hkey⟩
      · exact hm _ (List.mem_cons_of_mem _ hkv2)
    · rw [if_neg he] at hkv
      rcases List.mem_cons.mp hkv with rfl | hkv2
      · exact hm _ (List.mem_cons_self ..)
      · exact ih (fun kv2 h2 => hm _ (List.mem_cons_of_mem _ h2)) _ hkv2

lemma entryOK_foldKeys (cfg : List cmdSet) (set : cmdSet) (c : Str)
    (hset : set ∈ cfg) (hc : c ∈ set.cmds) :
    ∀ (ks : List Str),
      (∀ k ∈ ks, ∃ mdl ∈ effModels set,
        k = keyFmt set.addr set.hostname set.vendor set.os mdl set.version) →
      ∀ (mm : CmdMap), (∀ kv ∈ mm, entryOK cfg kv) →
      ∀ kv ∈ ks.foldl (fun m k => upsert m (normKey k) c) mm, entryOK cfg kv := by
  intro ks
  induction ks with
  | nil => intro _ mm hm kv hkv; exact hm kv hkv
  | cons k ks ih =>
    intro hks mm hm kv hkv
    rw [List.foldl_cons] at hkv
    refine ih (fun k2 h2 => hks k2 (List.mem_cons_of_mem _ h2)) _ ?_ kv hkv
    intro kv2 hkv2
    rcases hks k (List.mem_cons_self ..) with ⟨mdl, hmdl, rfl⟩
    exact entryOK_upsert cfg _ c ⟨set, hset, hc, mdl, hmdl, rfl⟩ mm hm kv2 hkv2

lemma entryOK_mapCmd (cfg : List cmdSet) (set : cmdSet) (c : Str)
    (hset : set ∈ cfg) (hc : c ∈ set.cmds) :
    ∀ (mm : CmdMap), (∀ kv ∈ mm, entryOK cfg kv) → ∀ kv ∈ mapCmd set c mm, entryOK cfg kv := by
  intro mm hm kv hkv
  unfold mapCmd at hkv
  refine entryOK_foldKeys cfg set c hset hc (rawKeys set) ?_ mm hm kv hkv
  intro k hk
  rw [rawKeys_eq_map] at hk
  rcases List.mem_map.mp hk with ⟨mdl, hmdl, rfl⟩
  exact ⟨mdl, hmdl, rfl⟩

lemma entryOK_foldCmds (cfg : List cmdSet) (set : cmdSet) (hset : set ∈ cfg) :
    ∀ (cs : List Str), (∀ c ∈ cs, c ∈ set.cmds) →
      ∀ (mm : CmdMap), (∀ kv ∈ mm, entryOK cfg kv) →
      ∀ kv ∈ cs.foldl (fun m c => mapCmd set c m) mm, entryOK cfg kv := by
  intro cs
  induction cs with
  | nil => intro _ mm hm kv hkv; exact hm kv hkv
  | cons c cs ih =>
    intro hcs mm hm kv hkv
    rw [List.foldl_cons] at hkv
    exact ih (fun c2 h2 => hcs c2 (List.mem_cons_of_mem _ h2)) _
      (entryOK_mapCmd cfg set c hset (hcs c (List.mem_cons_self ..)) mm hm) kv hkv

/-- Every entry of `MapCmds cfg` is accounted for by declared rules. -/
lemma entryOK_MapCmds (cfg : List cmdSet) : ∀ kv ∈ MapCmds cfg, entryOK cfg kv := by
  unfold MapCmds
  suffices hsuff : ∀ (sets : List cmdSet), (∀ s ∈ sets, s ∈ cfg) →
      ∀ (mm : CmdMap), (∀ kv ∈ mm, entryOK cfg kv) →
      ∀ kv ∈ sets.foldl (fun m set => set.cmds.foldl (fun m c => mapCmd set c m) m) mm,
        entryOK cfg kv by
    intro kv hkv
    exact hsuff cfg (fun s hs => hs) [] (fun kv2 h2 => absurd h2 (List.not_mem_nil kv2)) kv hkv
  intro sets
  induction sets with
  | nil => intro _ mm hm kv hkv; exact hm kv hkv
  | cons set sets ih =>
    intro hsets mm hm kv hkv
    rw [List.foldl_cons] at hkv
    exact ih (fun s hs => hsets s (List.mem_cons_of_mem _ hs)) _
      (entryOK_foldCmds cfg set (hsets set (List.mem_cons_self ..)) set.cmds
        (fun c hc => hc) mm hm) kv hkv

lemma clean_effModels {set : cmdSet} (hcs : cleanSet set) {mdl : Str}
    (hmdl : mdl ∈ effModels set) : cleanStr mdl := by
  unfold effModels at hmdl
  by_cases hlen : set.models.length > 0
  · rw [if_pos hlen] at hmdl
    exact hcs.2.2.2.2.2 mdl hmdl
  · rw [if_neg hlen] at hmdl
    rcases List.mem_singleton.mp hmdl with rfl
    exact cleanStr_nil

instance (c : Char) : Decidable (plainChar c) := by
  unfold plainChar
  infer_instance

instance (s : Str) : Decidable (cleanStr s) := by
  unfold cleanStr
  infer_instance

instance (set : cmdSet) : Decidable (cleanSet set) := by
  unfold cleanSet
  infer_instance

/-- C1 (amended): for rule sets whose field values and listed models are
clean — printable ASCII free of commas, colons, double quotes and
backslashes, lowercase-trim-stable — every command the selection step
returns belongs to a declared rule one of whose model instances matches the
identity case-insensitively in every field it sets, with unset fields
imposing no constraint and a non-empty `models` list expanded one instance
per listed model. -/
theorem c1_amended_selection_sound (cfg : List cmdSet)
    (hclean : ∀ set ∈ cfg, cleanSet set)
    (order : CmdMap) (hord : order.Perm (MapCmds cfg))
    (c : Client) (l : List Str)
    (hsel : selectCmds order c = SelectResult.cmds l) :
    ∀ cmd ∈ l, ∃ set ∈ cfg, cmd ∈ set.cmds ∧
      ∃ mdl ∈ effModels set, matchesIdent set mdl c := by
  unfold selectCmds at hsel
  split at hsel
  · cases hsel
  · rename_i cs hloop
    split at hsel
    · rename_i g hlk
      have hmem := lookupMap_mem order _ g hlk
      have hpkg : parseKey (chars "generic") = none := by decide
      have hnone : selectLoop order c = none := by
        unfold selectLoop
        exact selectLoopAux_eq_none c order [] ⟨(chars "generic", g), hmem, hpkg⟩
      rw [hloop] at hnone
      cases hnone
    · change (if cs.isEmpty = true then SelectResult.noMatch
        else SelectResult.cmds cs) = SelectResult.cmds l at hsel
      by_cases hemp : cs.isEmpty = true
      · rw [if_pos hemp] at hsel
        cases hsel
      · rw [if_neg hemp] at hsel
        injection hsel with hcl
        subst hcl
        unfold selectLoop at hloop
        rcases selectLoopAux_eq_some c order [] cs hloop with hnil | hfound
        · rw [hnil] at hemp
          exact absurd rfl hemp
        · rcases hfound with ⟨kv, hkvmem, mm, hpk, hmm, hkv2⟩
          have hkvM : kv ∈ MapCmds cfg := hord.mem_iff.mp hkvmem
          have hOK := entryOK_MapCmds cfg kv hkvM
          intro cmd hcmd
          rcases hOK.2 cmd (by rw [hkv2]; exact hcmd) with ⟨set, hset, hcset, mdl, hmdl, hkey⟩
          refine ⟨set, hset, hcset, mdl, hmdl, ?_⟩
          rcases hclean set hset with ⟨ha, hh2, hv2, ho2, hver2, hmods⟩
          have hmc : cleanStr mdl :=
            clean_effModels ⟨ha, hh2, hv2, ho2, hver2, hmods⟩ hmdl
          unfold keyOf normKey at hkey
          by_cases hgen : keyFmt set.addr set.hostname set.vendor set.os mdl set.version = [] ∨
              keyFmt set.addr set.hostname set.vendor set.os mdl set.version = genericSentinel
          · rw [if_pos hgen] at hkey
            rw [hkey, show parseKey (chars "generic") = none from by decide] at hpk
            cases hpk
          · rw [if_neg hgen, trimStr_keyFmt] at hkey
            rw [hkey, parseKey_keyFmt set.addr set.hostname set.vendor set.os mdl set.version
              ha hh2 hv2 ho2 hmc hver2] at hpk
            injection hpk with hpk
            rw [← hpk] at hmm
            have hres := (mismatch_parsed_eq_false set.addr set.hostname set.vendor set.os
              mdl set.version c).mp hmm
            obtain ⟨r1, r2, r3, r4, r5, r6⟩ := hres
            exact ⟨fun hne => r1.resolve_left hne, fun hne => r2.resolve_left hne,
              fun hne => r3.resolve_left hne, fun hne => r4.resolve_left hne,
              fun hne => r5.resolve_left hne, fun hne => r6.resolve_left hne⟩

/-- A one-rule set whose vendor value contains a colon. -/
def cfgC1x : List cmdSet := [⟨[], [], chars "a:b", [], [], [], [chars "c"]⟩]

/-- An identity whose vendor is the part of that value before the colon. -/
def clientC1x : Client := ⟨[], [], chars "a", [], [], []⟩

/-- C1 counterexample: the rule sets vendor `a:b`, the identity vendor is
`a` — not case-insensitively equal — yet the selection step returns the
rule's commands, because the worker re-splits the stored key on `":"` and
reads the vendor constraint as `a`. -/
theorem c1_claim_false_colon_field :
    selectCmds (MapCmds cfgC1x) clientC1x = SelectResult.cmds [chars "c"] ∧
    (chars "a:b" ≠ ([] : Str)) ∧
    lowerStr (chars "a:b") ≠ lowerStr clientC1x.vendor := by
  refine ⟨by decide, by decide, by decide⟩

/-- A clean one-rule cisco set. -/
def cfgC1w : List cmdSet := [⟨[], [], chars "Cisco", [], [], [], [chars "c1"]⟩]

/-- An identity that matches `cfgC1w` up to case. -/
def clientC1w : Client :=
  ⟨chars "10.0.0.9", chars "sw9", chars "CISCO", chars "IOS", chars "c3650", chars "15.2"⟩

/-- C1 witness: the amended soundness theorem applied to a concrete clean
rule set, iteration order, identity and returned command. -/
theorem c1_amended_selection_sound_witness :
    ∃ set ∈ cfgC1w, chars "c1" ∈ set.cmds ∧
      ∃ mdl ∈ effModels set, matchesIdent set mdl clientC1w :=
  c1_amended_selection_sound cfgC1w (by decide) (MapCmds cfgC1w) (List.Perm.refl _)
    clientC1w [chars "c1"] (by decide) (chars "c1") (List.mem_singleton.mpr rfl)
